import Mathlib

/-!
Shallow embedding of the `code-layering` ESLint rule (files `index.js` and
`utils.js` of the repository).  Strings are Lean `String`s; JavaScript
`undefined`/`null` values that flow through the code are modelled with
`Option`; a thrown JavaScript exception is modelled with `Except`.
Filesystem paths are lists of path segments measured from the filesystem
root, so `/` is `[]`, `path.dirname` is `List.dropLast` and `path.join d f`
is `d ++ [f]`.
-/

set_option autoImplicit false

namespace CodeLayering

/-! ### JavaScript string primitives used by the source -/

/-- `containsSub pat l`: JavaScript `String.prototype.includes`, on
character lists: does `pat` occur (contiguously) anywhere in `l`? -/
def containsSub (pat : List Char) : List Char → Bool
  | [] => pat.isEmpty
  | c :: rest => pat.isPrefixOf (c :: rest) || containsSub pat rest

/-- JavaScript `s.includes(sub)`. -/
def jsIncludes (s sub : String) : Bool :=
  containsSub sub.toList s.toList

/-- JavaScript `String.prototype.replace(pat, "")` with a string pattern:
removes the FIRST occurrence of `pat` only (occurrences are scanned left to
right), or returns the string unchanged when `pat` does not occur. -/
def replaceFirstAux (pat : List Char) : List Char → List Char
  | [] => []
  | c :: rest =>
    if pat.isPrefixOf (c :: rest) then (c :: rest).drop pat.length
    else c :: replaceFirstAux pat rest

/-- JavaScript `s.replace(pat, "")`. -/
def jsReplaceFirst (s pat : String) : String :=
  ⟨replaceFirstAux pat.toList s.toList⟩

/-- Split a character list at every `'/'` (JavaScript `s.split("/")`,
also what splitting Node's normalized path string on `"/"` does). -/
def splitSlashAux (cur : List Char) : List Char → List String
  | [] => [⟨cur.reverse⟩]
  | c :: restChars =>
    if c = '/' then ⟨cur.reverse⟩ :: splitSlashAux [] restChars
    else splitSlashAux (c :: cur) restChars

/-- `s.split("/")` as a list of segments. -/
def splitSlash (s : String) : List String :=
  splitSlashAux [] s.toList

/-- Does the string start with `'/'` (an absolute posix path)? -/
def startsWithSlash (s : String) : Bool :=
  match s.toList with
  | '/' :: _ => true
  | _ => false

/-! ### utils.js: short names, relative classification, policy lookup -/

/-- The scope token `@<rootPackageName>/` that `getShortPackageName`
removes. -/
def scopeToken (rootPackageName : String) : String :=
  "@" ++ rootPackageName ++ "/"

/-- utils.js `getShortPackageName`: removes the scope token
`@<rootPackageName>/` from `currentPackageName` via `String.replace`
with a string pattern, i.e. first occurrence only.
(`rootPackageName`, a module-level constant read from the root manifest in
the source, is an explicit parameter here.) -/
def getShortPackageName (rootPackageName currentPackageName : String) : String :=
  jsReplaceFirst currentPackageName (scopeToken rootPackageName)

/-- utils.js `isRelativeImport`: `importPath.includes("..")`. -/
def isRelativeImport (importPath : String) : Bool :=
  jsIncludes importPath ".."

/-- One element of the rule's options array
(`{ target, allow, restrict }`). -/
structure PolicyEntry where
  target : String
  allow : List String
  restrict : List String
  deriving Repr, DecidableEq

/-- utils.js `findConfigByPackageName` (the case where
`currentPackageName` is a defined string): linear search of the options
for an entry whose `target` equals the short name, else the synthesized
default `{target: shortName, allow: ["*"], restrict: []}`. -/
def findConfigByPackageName (rootPackageName : String) (options : List PolicyEntry)
    (currentPackageName : String) : PolicyEntry :=
  let shortPackageName := getShortPackageName rootPackageName currentPackageName
  (options.find? (fun e => e.target == shortPackageName)).getD
    { target := shortPackageName, allow := ["*"], restrict := [] }

/-- utils.js `reportLayerBreakingImport`: wraps the message (the
`context.report` call is modelled as producing the message string). -/
def reportLayerBreakingImport (message : String) : String :=
  "🚨 " ++ message ++ " 🚨"

/-! ### index.js: handleAbsoluteImport -/

/-- index.js `handleAbsoluteImport`: the emitted reports (`[]` = pass). -/
def handleAbsoluteImport (rootPackageName currentPackageName : String)
    (allow restrict : List String) (importPath : String) : List String :=
  let shortImportPackageName := getShortPackageName rootPackageName importPath
  let shortCurrentPackageName := getShortPackageName rootPackageName currentPackageName
  let allowed := allow.any (fun packageName =>
    packageName == "*" || packageName == shortImportPackageName)
  if !allowed then
    [reportLayerBreakingImport
      ("Layer-breaking: \"" ++ shortImportPackageName ++
        "\" is not in allow-list of \"" ++ shortCurrentPackageName ++ "\"")]
  else if restrict.contains shortImportPackageName then
    [reportLayerBreakingImport
      ("Layer-breaking: \"" ++ shortCurrentPackageName ++
        "\" is restricted from importing \"" ++ shortImportPackageName ++ "\"")]
  else []

/-! ### Filesystem model

A directory entry is either a file or a directory with named children.
Only manifest files (`package.json`) carry interesting content: a parsed
manifest with an optional `name` field, or `malformed` (reading / parsing
it throws).  All other files are `plain`. -/

inductive FileContent where
  | manifest : Option String → FileContent
  | malformed : FileContent
  | plain : FileContent
  deriving Repr, DecidableEq

inductive FsEntry where
  | fileE : FileContent → FsEntry
  | dirE : List (String × FsEntry) → FsEntry

/-- Look a path up in the tree (`none` = nothing exists at that path). -/
def getEntry : FsEntry → List String → Option FsEntry
  | e, [] => some e
  | .fileE _, _ :: _ => none
  | .dirE children, s :: rest =>
    match children.find? (fun c => c.1 == s) with
    | none => none
    | some c => getEntry c.2 rest

/-- `fs.existsSync`: something (file or directory) exists at the path. -/
def existsPath (fs : FsEntry) (p : List String) : Bool :=
  (getEntry fs p).isSome

/-- Reading and JSON-parsing `dir/package.json` and extracting
`packageJson.name || null`, with every failure (missing file, directory in
place of a file, malformed JSON, missing or empty `name`) caught and turned
into `null`, exactly as the `try/catch` in `getPackageNameFromPath` does. -/
def readManifestName (fs : FsEntry) (dir : List String) : Option String :=
  match getEntry fs (dir ++ ["package.json"]) with
  | some (.fileE (.manifest (some s))) => if s = "" then none else some s
  | _ => none

/-! ### utils.js: findInternalPackageNames (registry build)

`traverseDir dir children` mirrors `traverse(dir)` after `readdirSync`:
it walks the entries in order; a subdirectory is descended into unless it
is named `node_modules`; a file named `package.json` is `require`d —
modelled as `.error ()` when malformed (the exception aborts the whole
build, there is no `try/catch` in `findInternalPackageNames`) and as
registering `(dir, name)` otherwise.  The registry is an association list
`directory → declared name` in traversal order (`Map.set`). -/

abbrev Registry := List (List String × Option String)

mutual

def traverseDir (dir : List String) : List (String × FsEntry) → Except Unit Registry
  | [] => .ok []
  | (name, child) :: rest =>
    match traverseChild dir name child with
    | .error e => .error e
    | .ok r1 =>
      match traverseDir dir rest with
      | .error e => .error e
      | .ok r2 => .ok (r1 ++ r2)

def traverseChild (dir : List String) (name : String) : FsEntry → Except Unit Registry
  | .dirE children =>
    if name = "node_modules" then .ok [] else traverseDir (dir ++ [name]) children
  | .fileE c =>
    if name = "package.json" then
      match c with
      | .manifest n => .ok [(dir, n)]
      | _ => .error ()
    else .ok []

end

/-- utils.js `findInternalPackageNames`: traverse the project root
directory (`cwd`).  `readdirSync` on a missing or non-directory root
throws (`.error ()`). -/
def findInternalPackageNames (fs : FsEntry) (cwd : List String) : Except Unit Registry :=
  match getEntry fs cwd with
  | some (.dirE children) => traverseDir cwd children
  | _ => .error ()

/-- JavaScript `Map.get` on the registry (first binding wins; a missing
key yields `undefined`, i.e. `none`). -/
def registryGet (m : Registry) (k : List String) : Option (Option String) :=
  (m.find? (fun kv => kv.1 == k)).map (fun kv => kv.2)

/-! ### utils.js: findPackageJson -/

/-- The upward walk of `findPackageJson`, with the current directory
represented innermost-segment-first (`revDir = currentDir.reverse`), so
that `path.dirname` (dropping the innermost segment) is structural
recursion.  The loop stops without a check once the root `/` (i.e. `[]`)
is reached (`while (currentDir !== "/")`). -/
def findPackageJsonLoop (fs : FsEntry) : List String → Option (List String)
  | [] => none
  | seg :: above =>
    let currentDir := (seg :: above).reverse
    if existsPath fs (currentDir ++ ["package.json"]) then some currentDir
    else findPackageJsonLoop fs above

/-- utils.js `findPackageJson`: nearest ancestor directory of `filePath`
(starting at `path.dirname filePath`, never reaching `/`) in which
`package.json` exists on the filesystem; `none` when the walk hits `/`. -/
def findPackageJson (fs : FsEntry) (filePath : List String) : Option (List String) :=
  findPackageJsonLoop fs filePath.dropLast.reverse

/-! ### utils.js: getPackageNameFromPath -/

/-- `path.normalize` (posix) at the segment level: drops empty and `"."`
segments and resolves `".."` against the preceding segment, keeping
unresolvable leading `".."`s of a relative path.  The source normalizes
the import string and then splits it on `"/"`; this produces those split
segments directly (the all-segments-cancelled case, where Node returns
`"."`, yields `[]` here — either way no non-dot segment remains). -/
def normalizeSegments (importPath : String) : List String :=
  let isAbs := startsWithSlash importPath
  (splitSlash importPath).foldl
    (fun acc seg =>
      if seg = "" || seg = "." then acc
      else if seg = ".." then
        match acc.getLast? with
        | some prev => if prev = ".." then acc ++ [".."] else acc.dropLast
        | none => if isAbs then [] else [".."]
      else acc ++ [seg])
    []

/-- utils.js `getPackageNameFromPath`: first non-`".."`, non-`"."`,
non-empty segment of the normalized import path, resolved as a directory
directly under the project root `cwd` (NOT relative to the importing
file: the `currentFilePath` parameter is accepted and ignored, as in the
source), whose manifest `name` is returned; `none` on any failure. -/
def getPackageNameFromPath (fs : FsEntry) (cwd : List String) (importPath : String)
    (_currentFilePath : List String) : Option String :=
  let pathSegments := normalizeSegments importPath
  match pathSegments.find? (fun segment =>
      segment != ".." && segment != "." && segment != "") with
  | none => none
  | some packageNameSegment => readManifestName fs (cwd ++ [packageNameSegment])

/-! ### index.js: relative imports, the per-import evaluator, create -/

/-- index.js `handleRelativeImport`. -/
def handleRelativeImport (fs : FsEntry) (cwd : List String) (currentPackageName : String)
    (importPath : String) (filename : List String) : List String :=
  let importedPackageName := getPackageNameFromPath fs cwd importPath filename
  if importedPackageName ≠ some currentPackageName then
    [reportLayerBreakingImport "Layer-breaking relative import detected"]
  else []

/-- index.js `ImportDeclaration` visitor body, for a file whose owning
package resolved to the (defined) `currentPackageName`: imports whose
path does not contain `rootPackageName` are ignored; otherwise a
relative import goes to `handleRelativeImport` and the rest to
`handleAbsoluteImport`.  Result: the list of emitted reports. -/
def evalImport (fs : FsEntry) (cwd : List String) (rootPackageName currentPackageName : String)
    (allow restrict : List String) (filename : List String) (importPath : String) : List String :=
  if !(jsIncludes importPath rootPackageName) then []
  else if isRelativeImport importPath then
    handleRelativeImport fs cwd currentPackageName importPath filename
  else
    handleAbsoluteImport rootPackageName currentPackageName allow restrict importPath

/-- The evaluator with the policy obtained from the options, as `create`
wires it (`findConfigByPackageName` then the visitor). -/
def evalWithOptions (fs : FsEntry) (cwd : List String) (rootPackageName : String)
    (options : List PolicyEntry) (currentPackageName : String)
    (filename : List String) (importPath : String) : List String :=
  let cfg := findConfigByPackageName rootPackageName options currentPackageName
  evalImport fs cwd rootPackageName currentPackageName cfg.allow cfg.restrict
    filename importPath

/-- A JavaScript runtime exception. -/
inductive JsError where
  | typeError
  deriving Repr, DecidableEq

/-- index.js `create`: resolves the current file's package root
(`findPackageJson`), its name (`packageMap.get`, `undefined`/`none` when
the path is `null`, not a key, or bound to an `undefined` name) and then
calls `findConfigByPackageName`.  When `currentPackageName` is
`undefined`, `getShortPackageName` evaluates
`currentPackageName.replace(...)` on `undefined` and throws a
`TypeError`; that crash is the `.error .typeError` branch.  On success it
returns the per-import evaluator. -/
def create (fs : FsEntry) (cwd : List String) (rootPackageName : String)
    (packageMap : Registry) (options : List PolicyEntry)
    (filename : List String) : Except JsError (String → List String) :=
  let packagePath := findPackageJson fs filename
  let currentPackageName : Option String :=
    (packagePath.bind (fun p => registryGet packageMap p)).join
  match currentPackageName with
  | none => .error .typeError
  | some name =>
    let cfg := findConfigByPackageName rootPackageName options name
    .ok (fun importPath =>
      evalImport fs cwd rootPackageName name cfg.allow cfg.restrict filename importPath)

/-! ### Concrete filesystem fixtures -/

/-- A small project tree:

* `/proj/package.json` — manifest `"root"` (the project root manifest)
* `/proj/node_modules/lib/package.json` — manifest `"lib"` (vendored)
* `/proj/node_modules/lib/src/x.js`
* `/proj/ui/package.json` — manifest `"@root/ui"`
* `/tmp/x.js` — a file outside every package
-/
def fsA : FsEntry :=
  .dirE
    [("proj", .dirE
        [("package.json", .fileE (.manifest (some "root"))),
         ("node_modules", .dirE
            [("lib", .dirE
                [("package.json", .fileE (.manifest (some "lib"))),
                 ("src", .dirE [("x.js", .fileE .plain)])])]),
         ("ui", .dirE [("package.json", .fileE (.manifest (some "@root/ui")))])]),
     ("tmp", .dirE [("x.js", .fileE .plain)])]

/-- The registry the scan of `fsA` rooted at `/proj` produces. -/
def regA : Registry :=
  [(["proj"], some "root"), (["proj", "ui"], some "@root/ui")]

/-- A project tree whose scan meets a malformed manifest:
`/proj/package.json` is a valid manifest `"root"`, but
`/proj/bad/package.json` does not parse. -/
def fsBad : FsEntry :=
  .dirE
    [("proj", .dirE
        [("package.json", .fileE (.manifest (some "root"))),
         ("bad", .dirE [("package.json", .fileE .malformed)])])]

/-! ### Helper lemmas -/

theorem toList_append (s t : String) : (s ++ t).toList = s.toList ++ t.toList :=
  String.data_append s t

theorem isPrefixOf_append_self (l r : List Char) : l.isPrefixOf (l ++ r) = true :=
  List.isPrefixOf_iff_prefix.mpr ⟨r, rfl⟩

theorem replaceFirstAux_of_not_contains (pat : List Char) :
    ∀ l : List Char, containsSub pat l = false → replaceFirstAux pat l = l := by
  intro l
  induction l with
  | nil => intro _; rfl
  | cons c rest ih =>
    intro h
    rw [containsSub, Bool.or_eq_false_iff] at h
    rw [replaceFirstAux, if_neg (by simp [h.1]), ih h.2]

theorem replaceFirstAux_cons_append (c : Char) (cs r : List Char) :
    replaceFirstAux (c :: cs) ((c :: cs) ++ r) = r := by
  have hcons : (c :: cs) ++ r = c :: (cs ++ r) := rfl
  rw [hcons, replaceFirstAux, if_pos (by rw [← hcons]; exact isPrefixOf_append_self _ _),
    ← hcons, List.drop_left]

theorem jsReplaceFirst_of_not_includes {s pat : String} (h : jsIncludes s pat = false) :
    jsReplaceFirst s pat = s := by
  unfold jsReplaceFirst
  rw [replaceFirstAux_of_not_contains _ _ h]
  rfl

theorem scopeToken_toList (root : String) :
    (scopeToken root).toList = '@' :: (root.toList ++ ['/']) := by
  show ("@" ++ root ++ "/").toList = _
  rw [toList_append, toList_append]
  rfl

theorem replaceFirstAux_length_lt (pat : List Char) (hp : pat ≠ []) :
    ∀ l : List Char, containsSub pat l = true →
      (replaceFirstAux pat l).length < l.length := by
  intro l
  induction l with
  | nil =>
    intro h
    rw [containsSub] at h
    simp at h
    exact absurd h hp
  | cons c rest ih =>
    intro h
    rw [containsSub] at h
    rw [replaceFirstAux]
    by_cases hpre : pat.isPrefixOf (c :: rest) = true
    · rw [if_pos hpre]
      have hlen : 1 ≤ pat.length := by
        cases pat with
        | nil => exact absurd rfl hp
        | cons a as => simp
      simp only [List.length_drop, List.length_cons]
      omega
    · rw [if_neg hpre]
      have h2 : containsSub pat rest = true := by
        have hb : pat.isPrefixOf (c :: rest) = false := by
          cases hx : pat.isPrefixOf (c :: rest)
          · rfl
          · exact absurd hx hpre
        rwa [hb, Bool.false_or] at h
      have := ih h2
      simp only [List.length_cons]
      omega

/-! ### Claim C5: idempotence of ShortName -/

/-- Claim C5 is false as stated: `getShortPackageName` removes only the
first occurrence of the scope token, so on a name containing it twice a
second application removes a second occurrence.  Concretely, with root
package name `"root"` and `x = "@root/@root/a"`, `ShortName x =
"@root/a"` but `ShortName (ShortName x) = "a"`.  Removing the token can
even create a fresh occurrence: `"@ro@root/ot/a"` contains the token
`"@root/"` exactly once, yet `ShortName` maps it to `"@root/a"` and a
second application to `"a"`. -/
theorem claim_C5_cex :
    getShortPackageName "root" "@root/@root/a" = "@root/a" ∧
    getShortPackageName "root" (getShortPackageName "root" "@root/@root/a") ≠
      getShortPackageName "root" "@root/@root/a" ∧
    getShortPackageName "root" "@ro@root/ot/a" = "@root/a" ∧
    getShortPackageName "root" (getShortPackageName "root" "@ro@root/ot/a") ≠
      getShortPackageName "root" "@ro@root/ot/a" := by
  refine ⟨rfl, by decide, rfl, by decide⟩

/-- Claim C5, amended: `ShortName` removes only the first occurrence of
the scope token `@<root>/` per application (and removing it can even
create a fresh occurrence, as in `"@ro@root/ot/a"` → `"@root/a"`, so even
one occurrence in `x` does not suffice), hence it is idempotent on a
string `x` exactly when its image `ShortName x` no longer contains the
token: when the image is token-free a second application changes nothing,
and when the image still contains the token a second application strictly
shortens it.  It is not idempotent on arbitrary strings. -/
theorem claim_C5 (root x : String) :
    getShortPackageName root (getShortPackageName root x) =
        getShortPackageName root x ↔
      jsIncludes (getShortPackageName root x) (scopeToken root) = false := by
  constructor
  · intro heq
    by_contra hne
    have hinc : jsIncludes (getShortPackageName root x) (scopeToken root) = true := by
      cases hb : jsIncludes (getShortPackageName root x) (scopeToken root)
      · exact absurd hb hne
      · rfl
    have hpat : (scopeToken root).toList ≠ [] := by
      rw [scopeToken_toList]
      simp
    have hlt := replaceFirstAux_length_lt (scopeToken root).toList hpat
      (getShortPackageName root x).toList hinc
    have hdata : replaceFirstAux (scopeToken root).toList
        (getShortPackageName root x).toList = (getShortPackageName root x).toList :=
      congrArg String.toList heq
    rw [hdata] at hlt
    omega
  · intro h
    exact jsReplaceFirst_of_not_includes h

theorem claim_C5_wit :
    jsIncludes (getShortPackageName "root" "@root/a") (scopeToken "root") = false ∧
    getShortPackageName "root" (getShortPackageName "root" "@root/a") =
      getShortPackageName "root" "@root/a" :=
  ⟨by decide, (claim_C5 "root" "@root/a").mpr (by decide)⟩

/-! ### Claim C8: what ShortName strips -/

/-- Claim C8 is false as stated: `getShortPackageName` is
`String.replace` with a string pattern, which removes the FIRST occurrence
of `@<root>/` anywhere in the name, not only a leading prefix.  The name
`"a@root/b"` contains the token only in a non-leading position, yet it is
not returned unmodified: the code yields `"ab"`. -/
theorem claim_C8_cex :
    getShortPackageName "root" "a@root/b" = "ab" ∧
    getShortPackageName "root" "a@root/b" ≠ "a@root/b" := by
  constructor
  · rfl
  · decide

/-- Claim C8, amended: `ShortName` removes the first occurrence of
`@<root-namespace>/` wherever it occurs in the name; when the name starts
with the token this strips exactly that leading prefix, and every name not
containing the token at all passes through unchanged (a name containing
the token only in a non-leading position is NOT returned unmodified). -/
theorem claim_C8 (root rest x : String) :
    getShortPackageName root (scopeToken root ++ rest) = rest ∧
    (jsIncludes x (scopeToken root) = false → getShortPackageName root x = x) := by
  constructor
  · show jsReplaceFirst (scopeToken root ++ rest) (scopeToken root) = rest
    unfold jsReplaceFirst
    rw [toList_append, scopeToken_toList, replaceFirstAux_cons_append]
    rfl
  · intro h
    exact jsReplaceFirst_of_not_includes h

theorem claim_C8_wit :
    getShortPackageName "root" (scopeToken "root" ++ "ui") = "ui" ∧
    getShortPackageName "root" "core" = "core" :=
  ⟨(claim_C8 "root" "ui" "core").1, (claim_C8 "root" "ui" "core").2 (by decide)⟩

/-! ### Claim C2: absolute-import allow/restrict precedence -/

/-- Claim C2, confirmed: for an absolute internal import,
`handleAbsoluteImport` first checks the allow-list — when the import's
short name is not a member of `allow` and `allow` has no wildcard `"*"`,
exactly one "not in allow-list" violation is reported and the result does
not depend on `restrict`; otherwise, when the short name is in
`restrict`, exactly one "restricted from importing" violation is
reported; otherwise nothing is reported. -/
theorem claim_C2 (root current : String) (allow restrict : List String)
    (importPath : String) :
    (("*" ∉ allow ∧ getShortPackageName root importPath ∉ allow) →
      handleAbsoluteImport root current allow restrict importPath =
        [reportLayerBreakingImport
          ("Layer-breaking: \"" ++ getShortPackageName root importPath ++
            "\" is not in allow-list of \"" ++ getShortPackageName root current ++ "\"")]) ∧
    (("*" ∈ allow ∨ getShortPackageName root importPath ∈ allow) →
      getShortPackageName root importPath ∈ restrict →
      handleAbsoluteImport root current allow restrict importPath =
        [reportLayerBreakingImport
          ("Layer-breaking: \"" ++ getShortPackageName root current ++
            "\" is restricted from importing \"" ++
            getShortPackageName root importPath ++ "\"")]) ∧
    (("*" ∈ allow ∨ getShortPackageName root importPath ∈ allow) →
      getShortPackageName root importPath ∉ restrict →
      handleAbsoluteImport root current allow restrict importPath = []) := by
  refine ⟨?_, ?_, ?_⟩
  · rintro ⟨hw, hs⟩
    have hany : (allow.any fun packageName =>
        packageName == "*" || packageName == getShortPackageName root importPath) = false := by
      rw [List.any_eq_false]
      intro x hx
      simp only [Bool.or_eq_true, beq_iff_eq, not_or]
      exact ⟨fun h => hw (h ▸ hx), fun h => hs (h ▸ hx)⟩
    simp [handleAbsoluteImport, hany]
  · intro hallow hres
    have hany : (allow.any fun packageName =>
        packageName == "*" || packageName == getShortPackageName root importPath) = true := by
      rw [List.any_eq_true]
      rcases hallow with h | h
      · exact ⟨"*", h, by simp⟩
      · exact ⟨_, h, by simp⟩
    have hcon : restrict.contains (getShortPackageName root importPath) = true := by
      simpa using hres
    simp only [handleAbsoluteImport, hany, hcon, Bool.not_true, Bool.false_eq_true,
      if_false, if_true]
  · intro hallow hres
    have hany : (allow.any fun packageName =>
        packageName == "*" || packageName == getShortPackageName root importPath) = true := by
      rw [List.any_eq_true]
      rcases hallow with h | h
      · exact ⟨"*", h, by simp⟩
      · exact ⟨_, h, by simp⟩
    have hcon : restrict.contains (getShortPackageName root importPath) = false := by
      simpa using hres
    simp only [handleAbsoluteImport, hany, hcon, Bool.not_true, Bool.false_eq_true,
      if_false, if_true]

theorem claim_C2_wit :
    handleAbsoluteImport "root" "@root/core" ["data"] ["ui"] "@root/ui" =
      [reportLayerBreakingImport
        "Layer-breaking: \"ui\" is not in allow-list of \"core\""] ∧
    handleAbsoluteImport "root" "@root/core" ["*"] ["ui"] "@root/ui" =
      [reportLayerBreakingImport
        "Layer-breaking: \"core\" is restricted from importing \"ui\""] ∧
    handleAbsoluteImport "root" "@root/core" ["*"] ["ui"] "@root/data" = [] :=
  ⟨(claim_C2 "root" "@root/core" ["data"] ["ui"] "@root/ui").1 (by decide),
   (claim_C2 "root" "@root/core" ["*"] ["ui"] "@root/ui").2.1 (by decide) (by decide),
   (claim_C2 "root" "@root/core" ["*"] ["ui"] "@root/data").2.2 (by decide) (by decide)⟩

/-! ### Claim C10: exact-match semantics of list entries -/

/-- Claim C10, confirmed: allow-list matching compares the whole
prefix-stripped import path for exact string equality, so an import whose
stripped path (e.g. `"ui/button"`) extends beyond a bare package short
name in `allow` (e.g. `"ui"`) is reported as not in the allow-list unless
`allow` contains the wildcard. -/
theorem claim_C10 (root current : String) (allow restrict : List String)
    (importPath : String) (hw : "*" ∉ allow)
    (hs : getShortPackageName root importPath ∉ allow) :
    handleAbsoluteImport root current allow restrict importPath =
      [reportLayerBreakingImport
        ("Layer-breaking: \"" ++ getShortPackageName root importPath ++
          "\" is not in allow-list of \"" ++ getShortPackageName root current ++ "\"")] := by
  have hany : (allow.any fun packageName =>
      packageName == "*" || packageName == getShortPackageName root importPath) = false := by
    rw [List.any_eq_false]
    intro x hx
    simp only [Bool.or_eq_true, beq_iff_eq, not_or]
    exact ⟨fun h => hw (h ▸ hx), fun h => hs (h ▸ hx)⟩
  simp [handleAbsoluteImport, hany]

theorem claim_C10_wit :
    getShortPackageName "root" "@root/ui/button" = "ui/button" ∧
    handleAbsoluteImport "root" "@root/core" ["ui"] [] "@root/ui/button" =
      [reportLayerBreakingImport
        "Layer-breaking: \"ui/button\" is not in allow-list of \"core\""] :=
  ⟨rfl, claim_C10 "root" "@root/core" ["ui"] [] "@root/ui/button" (by decide) (by decide)⟩

/-! ### Claim C4: default-allow for packages without a policy entry -/

/-- Claim C4, confirmed: when no options entry targets the package's short
name, `findConfigByPackageName` returns the synthesized default
`{allow: ["*"], restrict: []}`, and consequently every absolute
internal import evaluated from that package passes (no report). -/
theorem claim_C4 (fs : FsEntry) (cwd : List String) (root : String)
    (options : List PolicyEntry) (currentPackageName : String)
    (filename : List String) (importPath : String)
    (hnone : ∀ e ∈ options, e.target ≠ getShortPackageName root currentPackageName) :
    findConfigByPackageName root options currentPackageName =
      { target := getShortPackageName root currentPackageName,
        allow := ["*"], restrict := [] } ∧
    (isRelativeImport importPath = false → jsIncludes importPath root = true →
      evalWithOptions fs cwd root options currentPackageName filename importPath = []) := by
  have hfind : options.find?
      (fun e => e.target == getShortPackageName root currentPackageName) = none := by
    rw [List.find?_eq_none]
    intro e he
    simpa using hnone e he
  have hcfg : findConfigByPackageName root options currentPackageName =
      { target := getShortPackageName root currentPackageName,
        allow := ["*"], restrict := [] } := by
    simp only [findConfigByPackageName]
    rw [hfind]
    rfl
  refine ⟨hcfg, fun habs hint => ?_⟩
  unfold evalWithOptions
  rw [hcfg]
  unfold evalImport
  rw [hint, habs]
  simp [handleAbsoluteImport]

theorem claim_C4_wit :
    findConfigByPackageName "root"
      [{ target := "core", allow := ["data"], restrict := [] }] "@root/ui" =
      { target := "ui", allow := ["*"], restrict := [] } ∧
    evalWithOptions fsA ["proj"] "root"
      [{ target := "core", allow := ["data"], restrict := [] }] "@root/ui"
      ["proj", "ui", "a.js"] "@root/data" = [] :=
  ⟨(claim_C4 fsA ["proj"] "root"
      [{ target := "core", allow := ["data"], restrict := [] }] "@root/ui"
      ["proj", "ui", "a.js"] "@root/data" (by decide)).1,
   (claim_C4 fsA ["proj"] "root"
      [{ target := "core", allow := ["data"], restrict := [] }] "@root/ui"
      ["proj", "ui", "a.js"] "@root/data" (by decide)).2 (by decide) (by decide)⟩

/-! ### Claim C1: relative imports across package boundaries -/

/-- Claim C1 is false as stated: the `ImportDeclaration` visitor ignores
every import whose path does not contain `rootPackageName`, BEFORE the
relative-import check.  Concretely, from a file of the registered package
`@root/ui` (root package name `"root"`), the relative import
`"../data/x"` resolves to no package (differs from the current package),
yet the evaluator reports nothing, because `"../data/x"` does not contain
the root-namespace token `"root"`. -/
theorem claim_C1_cex :
    findPackageJson fsA ["proj", "ui", "a.js"] = some ["proj", "ui"] ∧
    registryGet regA ["proj", "ui"] = some (some "@root/ui") ∧
    isRelativeImport "../data/x" = true ∧
    getPackageNameFromPath fsA ["proj"] "../data/x" ["proj", "ui", "a.js"] ≠
      some "@root/ui" ∧
    jsIncludes "../data/x" "root" = false ∧
    evalImport fsA ["proj"] "root" "@root/ui" ["*"] [] ["proj", "ui", "a.js"]
      "../data/x" = [] :=
  ⟨rfl, rfl, rfl, by decide, rfl, rfl⟩

/-- Claim C1, amended: for a relative import (path containing `".."`)
that DOES contain the root-namespace token (imports without it are
ignored as external before any other check), if the resolved target
package's full name differs from the current package's name (including
when resolution yields no match), the evaluator reports exactly the
"layer-breaking relative import" violation, regardless of the
allow/restrict configuration. -/
theorem claim_C1 (fs : FsEntry) (cwd : List String) (root current : String)
    (allow restrict : List String) (filename : List String) (importPath : String)
    (hroot : jsIncludes importPath root = true)
    (hrel : isRelativeImport importPath = true)
    (hdiff : getPackageNameFromPath fs cwd importPath filename ≠ some current) :
    evalImport fs cwd root current allow restrict filename importPath =
      [reportLayerBreakingImport "Layer-breaking relative import detected"] := by
  unfold evalImport
  rw [hroot, hrel]
  simp [handleRelativeImport, hdiff]

theorem claim_C1_wit :
    jsIncludes "../root/x" "root" = true ∧
    isRelativeImport "../root/x" = true ∧
    getPackageNameFromPath fsA ["proj"] "../root/x" ["proj", "ui", "a.js"] ≠
      some "@root/ui" ∧
    evalImport fsA ["proj"] "root" "@root/ui" ["ui", "data"] ["data"]
      ["proj", "ui", "a.js"] "../root/x" =
      [reportLayerBreakingImport "Layer-breaking relative import detected"] :=
  ⟨by decide, by decide, by decide,
   claim_C1 fsA ["proj"] "root" "@root/ui" ["ui", "data"] ["data"]
     ["proj", "ui", "a.js"] "../root/x" (by decide) (by decide) (by decide)⟩

/-! ### Claim C3: files with no owning package -/

/-- Claim C3 names the intended behavior (spec: "enforcement is skipped
for that file (fail-open) — the system reports nothing"), but the code
crashes instead: with no owning package, `currentPackageName` is
`undefined` and `findConfigByPackageName` immediately evaluates
`currentPackageName.replace(...)`, throwing a `TypeError` while the rule
visitor is being created.  Concretely, for the file `/tmp/x.js` (no
ancestor directory with a manifest, hence no registry match), `create`
raises instead of skipping. -/
theorem claim_C3_bug :
    findInternalPackageNames fsA ["proj"] = .ok regA ∧
    findPackageJson fsA ["tmp", "x.js"] = none ∧
    create fsA ["proj"] "root" regA [] ["tmp", "x.js"] = .error .typeError :=
  ⟨rfl, rfl, rfl⟩

/-! ### Claim C6: malformed manifest during the registry scan -/

/-- Claim C6 is false as stated: `findInternalPackageNames` calls
`require(packageJsonPath)` with no `try/catch`, so a malformed manifest
throws and aborts the whole registry build — the directory is not
"silently skipped" with the build continuing.  Concretely, scanning
`fsBad` (which contains `/proj/bad/package.json`, malformed) produces an
error instead of a registry. -/
theorem claim_C6_cex :
    findInternalPackageNames fsBad ["proj"] = .error () := rfl

/-- Claim C6, amended: a malformed manifest encountered during the
registry scan is fatal: when the walk reaches a directory listing whose
entry is a malformed `package.json` the build raises at once (the rest of
the listing is never scanned), and the error propagates through every
enclosing directory of the walk, so no registry is produced. -/
theorem claim_C6 :
    (∀ (dir : List String) (rest : List (String × FsEntry)),
      traverseDir dir (("package.json", .fileE .malformed) :: rest) = .error ()) ∧
    (∀ (dir : List String) (name : String) (e : FsEntry)
        (rest : List (String × FsEntry)),
      traverseChild dir name e = .error () →
        traverseDir dir ((name, e) :: rest) = .error ()) := by
  constructor
  · intro dir rest
    rw [traverseDir]
    have h : traverseChild dir "package.json" (.fileE .malformed) = .error () := by
      rw [traverseChild, if_pos rfl]
      intro n hn
      exact FileContent.noConfusion hn
    rw [h]
  · intro dir name e rest h
    rw [traverseDir, h]

theorem claim_C6_wit :
    traverseDir ["proj", "bad"] [("package.json", .fileE .malformed)] = .error () ∧
    traverseDir ["proj"]
      [("bad", .dirE [("package.json", .fileE .malformed)]),
       ("package.json", .fileE (.manifest (some "root")))] = .error () :=
  ⟨claim_C6.1 ["proj", "bad"] [],
   claim_C6.2 ["proj"] "bad" (.dirE [("package.json", .fileE .malformed)])
     [("package.json", .fileE (.manifest (some "root")))] (by rfl)⟩

/-! ### Claim C9: the registry never registers under node_modules -/

theorem traverseDir_keys :
    ∀ (dir : List String) (l : List (String × FsEntry)) (m : Registry),
      traverseDir dir l = .ok m →
      ∀ p n, (p, n) ∈ m → ∃ s, p = dir ++ s ∧ "node_modules" ∉ s := by
  intro dir l
  refine traverseDir.induct
    (fun dir l => ∀ m, traverseDir dir l = .ok m →
      ∀ p n, (p, n) ∈ m → ∃ s, p = dir ++ s ∧ "node_modules" ∉ s)
    (fun dir name e => ∀ m, traverseChild dir name e = .ok m →
      ∀ p n, (p, n) ∈ m → ∃ s, p = dir ++ s ∧ "node_modules" ∉ s)
    ?_ ?_ ?_ ?_ ?_ ?_ ?_ ?_ ?_ dir l
  · -- skipped node_modules directory: nothing is registered
    intro dir children m hm p n hp
    rw [traverseChild, if_pos rfl] at hm
    cases hm
    simp at hp
  · -- descend into a directory not named node_modules
    intro dir name children hname ih m hm p n hp
    rw [traverseChild, if_neg hname] at hm
    obtain ⟨s, hs, hnm⟩ := ih m hm p n hp
    refine ⟨name :: s, ?_, ?_⟩
    · rw [hs, List.append_assoc]
      rfl
    · intro hmem
      rcases List.mem_cons.mp hmem with h | h
      · exact hname h.symm
      · exact hnm h
  · -- a manifest file registers its containing directory
    intro dir n m hm p n' hp
    rw [traverseChild, if_pos rfl] at hm
    cases hm
    simp only [List.mem_singleton, Prod.mk.injEq] at hp
    exact ⟨[], by simp [hp.1], by simp⟩
  · -- a package.json that is not a parsed manifest aborts (no ok result)
    intro dir c hc m hm
    cases c with
    | manifest n => exact absurd rfl (hc n)
    | malformed =>
      rw [traverseChild.eq_def] at hm
      simp at hm
    | plain =>
      rw [traverseChild.eq_def] at hm
      simp at hm
  · -- a file that is not package.json registers nothing
    intro dir name c hname m hm p n hp
    rw [traverseChild.eq_def] at hm
    simp only [hname, if_neg, if_false, ite_false] at hm
    cases hm
    simp at hp
  · -- empty directory listing
    intro dir m hm p n hp
    rw [traverseDir] at hm
    cases hm
    simp at hp
  · -- first entry aborts the walk: no ok result
    intro dir name child rest e herr _ m hm
    rw [traverseDir, herr] at hm
    cases hm
  · -- rest of the listing aborts the walk: no ok result
    intro dir name child rest r1 hok e herr _ _ m hm
    rw [traverseDir, hok, herr] at hm
    cases hm
  · -- both parts succeed: keys come from one of them
    intro dir name child rest r1 hok1 r2 hok2 ihc ihr m hm p n hp
    rw [traverseDir, hok1, hok2] at hm
    cases hm
    rcases List.mem_append.mp hp with h | h
    · exact ihc r1 hok1 p n h
    · exact ihr r2 hok2 p n h

/-- Claim C9, confirmed: every directory registered by the scan is the
scan root extended by segments none of which is `node_modules`; in
particular no registered directory lies under a dependency-vendor
(`node_modules`) directory, even when such a directory or its
descendants contain a manifest file. -/
theorem claim_C9 (fs : FsEntry) (cwd : List String) (m : Registry)
    (hm : findInternalPackageNames fs cwd = .ok m) :
    ∀ p n, (p, n) ∈ m → ∃ s, p = cwd ++ s ∧ "node_modules" ∉ s := by
  unfold findInternalPackageNames at hm
  split at hm
  · exact traverseDir_keys cwd _ m hm
  · cases hm

theorem claim_C9_wit :
    ∃ s, (["proj", "ui"] : List String) = ["proj"] ++ s ∧ "node_modules" ∉ s :=
  claim_C9 fsA ["proj"] regA rfl ["proj", "ui"] (some "@root/ui") (by decide)

/-! ### Claim C7: what findPackageJson returns -/

theorem prefix_dropLast_of_ne {α : Type} {e l : List α} (h : e <+: l) (hne : e ≠ l) :
    e <+: l.dropLast := by
  obtain ⟨t, rfl⟩ := h
  have ht : t ≠ [] := by
    rintro rfl
    simp at hne
  rw [List.dropLast_append_of_ne_nil e ht]
  exact ⟨t.dropLast, rfl⟩

theorem findPackageJsonLoop_spec (fs : FsEntry) :
    ∀ rev : List String,
      (∀ d, findPackageJsonLoop fs rev = some d →
        d ≠ [] ∧ d <+: rev.reverse ∧ existsPath fs (d ++ ["package.json"]) = true ∧
        ∀ e, e <+: rev.reverse → d.length < e.length →
          existsPath fs (e ++ ["package.json"]) = false) ∧
      (findPackageJsonLoop fs rev = none →
        ∀ e, e ≠ [] → e <+: rev.reverse →
          existsPath fs (e ++ ["package.json"]) = false) := by
  intro rev
  induction rev with
  | nil =>
    refine ⟨?_, ?_⟩
    · intro d hd
      simp [findPackageJsonLoop] at hd
    · intro _ e he hpre
      simp only [List.reverse_nil, List.prefix_nil] at hpre
      exact absurd hpre he
  | cons seg above ih =>
    by_cases h : existsPath fs ((seg :: above).reverse ++ ["package.json"]) = true
    · refine ⟨?_, ?_⟩
      · intro d hd
        rw [findPackageJsonLoop, if_pos h] at hd
        cases hd
        refine ⟨by simp, List.prefix_refl _, h, ?_⟩
        intro e hepre hlen
        have := hepre.length_le
        omega
      · intro h0
        rw [findPackageJsonLoop, if_pos h] at h0
        cases h0
    · have hfalse : existsPath fs ((seg :: above).reverse ++ ["package.json"]) = false := by
        simpa using h
      have hdrop : ((seg :: above).reverse).dropLast = above.reverse := by
        rw [List.reverse_cons, List.dropLast_concat]
      have hsub : above.reverse <+: (seg :: above).reverse := by
        rw [List.reverse_cons]
        exact ⟨[seg], rfl⟩
      refine ⟨?_, ?_⟩
      · intro d hd
        rw [findPackageJsonLoop, if_neg h] at hd
        obtain ⟨hne, hpre, hex, hbound⟩ := ih.1 d hd
        refine ⟨hne, hpre.trans hsub, hex, ?_⟩
        intro e hepre hlen
        by_cases he : e = (seg :: above).reverse
        · rw [he]
          exact hfalse
        · exact hbound e (by rw [← hdrop]; exact prefix_dropLast_of_ne hepre he) hlen
      · intro h0 e hene hepre
        rw [findPackageJsonLoop, if_neg h] at h0
        by_cases he : e = (seg :: above).reverse
        · rw [he]
          exact hfalse
        · exact ih.2 h0 e hene (by rw [← hdrop]; exact prefix_dropLast_of_ne hepre he)

/-- Claim C7 is false as stated: `findPackageJson` walks upward checking
`fs.existsSync` for a manifest FILE on disk, not membership in the
registry, so its non-null result need not be a registered package
directory.  Concretely, for the file
`/proj/node_modules/lib/src/x.js`, the walk returns
`/proj/node_modules/lib` (its `package.json` exists on disk), but the
registry built from the very same tree has no such key — the scan never
descends into `node_modules` — so the subsequent `packageMap.get` yields
no package name. -/
theorem claim_C7_cex :
    findInternalPackageNames fsA ["proj"] = .ok regA ∧
    findPackageJson fsA ["proj", "node_modules", "lib", "src", "x.js"] =
      some ["proj", "node_modules", "lib"] ∧
    registryGet regA ["proj", "node_modules", "lib"] = none :=
  ⟨rfl, rfl, rfl⟩

/-- Claim C7, amended: `findPackageJson` returns the nearest (deepest)
ancestor directory of the file — strictly below the filesystem root, the
root itself is never examined — in which a `package.json` entry exists on
the filesystem, whether or not that directory is a registry key, and
returns null exactly when no such ancestor below the root exists. -/
theorem claim_C7 (fs : FsEntry) (filePath : List String) :
    (∀ d, findPackageJson fs filePath = some d →
      d ≠ [] ∧ d <+: filePath.dropLast ∧
      existsPath fs (d ++ ["package.json"]) = true ∧
      ∀ e, e <+: filePath.dropLast → d.length < e.length →
        existsPath fs (e ++ ["package.json"]) = false) ∧
    (findPackageJson fs filePath = none →
      ∀ e, e ≠ [] → e <+: filePath.dropLast →
        existsPath fs (e ++ ["package.json"]) = false) := by
  have hrr : (filePath.dropLast.reverse).reverse = filePath.dropLast :=
    List.reverse_reverse _
  have h := findPackageJsonLoop_spec fs filePath.dropLast.reverse
  rw [hrr] at h
  exact h

theorem claim_C7_wit :
    (["proj", "node_modules", "lib"] : List String) ≠ [] ∧
    ["proj", "node_modules", "lib"] <+:
      (["proj", "node_modules", "lib", "src", "x.js"] : List String).dropLast ∧
    existsPath fsA (["proj", "node_modules", "lib"] ++ ["package.json"]) = true :=
  ⟨((claim_C7 fsA ["proj", "node_modules", "lib", "src", "x.js"]).1
      ["proj", "node_modules", "lib"] rfl).1,
   ((claim_C7 fsA ["proj", "node_modules", "lib", "src", "x.js"]).1
      ["proj", "node_modules", "lib"] rfl).2.1,
   ((claim_C7 fsA ["proj", "node_modules", "lib", "src", "x.js"]).1
      ["proj", "node_modules", "lib"] rfl).2.2.1⟩

end CodeLayering
